import Mathlib

/-!
Shallow embedding of the stm32wl sub-GHz command-encoding layer.

Each Rust command type is a fixed 5-byte buffer; bytes are modelled as `Nat`
values below 256, and `u32` quantities as `Nat` values below `2 ^ 32`, with
the `as u32` casts of the source made explicit as `% 2 ^ 32`.
Buffers are `List Nat`; the Rust in-place writes `self.buf[i] = v` on the
consumed-and-returned builder value become `List.set i v`.
-/

namespace SubGhz

/-- Modelled from the spec: the operation-code registry (the `OpCode` enum is
declared outside the provided sources; only its uses appear there). The spec
describes it as a closed, injective name-to-8-bit-code mapping; the numeric
codes used here are the ones the sources pin down in the `as_slice` doctest
assertions (`0x86` for `SetRfFrequency`, `0x95` for `SetPaConfig`, `0x97` for
`SetTcxoMode`). -/
inductive OpCode where
  | setPaConfig
  | setRfFrequency
  | setTcxoMode
  deriving DecidableEq

/-- Numeric code of an operation code (the Rust `as u8` cast). -/
def OpCode.toBits : OpCode → Nat
  | .setPaConfig => 0x95
  | .setRfFrequency => 0x86
  | .setTcxoMode => 0x97

/-- RF frequency command: a 5-byte buffer (`struct RfFreq { buf: [u8; 5] }`). -/
structure RfFreq where
  buf : List Nat
  deriving DecidableEq

namespace RfFreq

/-- `RfFreq::from_bits`: opcode followed by the four big-endian bytes of
`bits`, each extracted by shift and mask exactly as in the source. -/
def from_bits (bits : Nat) : RfFreq :=
  { buf := [OpCode.toBits .setRfFrequency,
            (bits >>> 24) &&& 0xFF,
            (bits >>> 16) &&& 0xFF,
            (bits >>> 8) &&& 0xFF,
            bits &&& 0xFF] }

/-- `RfFreq::F915 = RfFreq::from_bits(0x39_30_00_00)`. -/
def F915 : RfFreq := from_bits 0x39300000

/-- `RfFreq::F868 = RfFreq::from_bits(0x36_40_00_00)`. -/
def F868 : RfFreq := from_bits 0x36400000

/-- `RfFreq::F433 = RfFreq::from_bits(0x1B_10_00_00)`. -/
def F433 : RfFreq := from_bits 0x1B100000

/-- `RfFreq::from_frequency`: `from_bits((((freq as u64) * (1 << 25)) / 32_000_000) as u32)`.
The widening to `u64` is exact arithmetic here; the final `as u32` cast is the
explicit `% 2 ^ 32`. -/
def from_frequency (freq : Nat) : RfFreq :=
  from_bits ((freq * (1 <<< 25)) / 32000000 % 2 ^ 32)

/-- `RfFreq::as_bits`: reassemble the 32-bit register value from the four
parameter bytes (`buf[1] << 24 | buf[2] << 16 | buf[3] << 8 | buf[4]`). -/
def as_bits (x : RfFreq) : Nat :=
  ((x.buf.getD 1 0) <<< 24) ||| ((x.buf.getD 2 0) <<< 16) |||
    ((x.buf.getD 3 0) <<< 8) ||| (x.buf.getD 4 0)

/-- `RfFreq::freq`: `(32_000_000 * (self.as_bits() as u64) / (1 << 25)) as u32`. -/
def freq (x : RfFreq) : Nat :=
  32000000 * x.as_bits / (1 <<< 25) % 2 ^ 32

/-- `RfFreq::as_slice`: the whole 5-byte buffer. -/
def as_slice (x : RfFreq) : List Nat := x.buf

end RfFreq

/-- Power-amplifier selection (`enum PaSel { Hp = 0b0, Lp = 0b1 }`). -/
inductive PaSel where
  | hp
  | lp
  deriving DecidableEq, Fintype

/-- Numeric code of a `PaSel` (the Rust `as u8` cast). -/
def PaSel.toBits : PaSel → Nat
  | .hp => 0
  | .lp => 1

/-- Hand-written `Ord for PaSel` of the source: `Hp` compares `Greater` than
`Lp`, reversed from the declaration / numeric-code order. -/
def PaSel.cmp : PaSel → PaSel → Ordering
  | .hp, .hp => .eq
  | .lp, .lp => .eq
  | .hp, .lp => .gt
  | .lp, .hp => .lt

/-- Power-amplifier configuration command (`struct PaConfig { buf: [u8; 5] }`). -/
structure PaConfig where
  buf : List Nat
  deriving DecidableEq

namespace PaConfig

/-- `PaConfig::new`: the default buffer `[opcode, 0x01, 0x00, 0x01, 0x01]`. -/
def new : PaConfig :=
  { buf := [OpCode.toBits .setPaConfig, 0x01, 0x00, 0x01, 0x01] }

/-- `PaConfig::set_pa_duty_cycle`: `self.buf[1] = pa_duty_cycle & 0b111`. -/
def set_pa_duty_cycle (p : PaConfig) (pa_duty_cycle : Nat) : PaConfig :=
  { buf := p.buf.set 1 (pa_duty_cycle &&& 0b111) }

/-- `PaConfig::set_hp_max`: `self.buf[2] = hp_max & 0b111`. -/
def set_hp_max (p : PaConfig) (hp_max : Nat) : PaConfig :=
  { buf := p.buf.set 2 (hp_max &&& 0b111) }

/-- `PaConfig::set_pa`: `self.buf[3] = pa as u8`. -/
def set_pa (p : PaConfig) (pa : PaSel) : PaConfig :=
  { buf := p.buf.set 3 pa.toBits }

/-- `PaConfig::as_slice`: the whole 5-byte buffer. -/
def as_slice (p : PaConfig) : List Nat := p.buf

end PaConfig

/-- TCXO trim voltage (`enum TcxoTrim`, codes `0x0 .. 0x7`). -/
inductive TcxoTrim where
  | volts1pt6
  | volts1pt7
  | volts1pt8
  | volts2pt2
  | volts2pt4
  | volts2pt7
  | volts3pt0
  | volts3pt3
  deriving DecidableEq, Fintype

/-- Numeric code of a `TcxoTrim` (the Rust `as u8` cast): `Volts1pt6 = 0x0`
through `Volts3pt3 = 0x7` in declaration order. -/
def TcxoTrim.toBits : TcxoTrim → Nat
  | .volts1pt6 => 0x0
  | .volts1pt7 => 0x1
  | .volts1pt8 => 0x2
  | .volts2pt2 => 0x3
  | .volts2pt4 => 0x4
  | .volts2pt7 => 0x5
  | .volts3pt0 => 0x6
  | .volts3pt3 => 0x7

/-- `TcxoTrim::as_millivolts`: the fixed lookup table of the source. -/
def TcxoTrim.as_millivolts : TcxoTrim → Nat
  | .volts1pt6 => 1600
  | .volts1pt7 => 1700
  | .volts1pt8 => 1800
  | .volts2pt2 => 2200
  | .volts2pt4 => 2400
  | .volts2pt7 => 2700
  | .volts3pt0 => 3000
  | .volts3pt3 => 3300

/-- TCXO mode command (`struct TcxoMode { buf: [u8; 5] }`). -/
structure TcxoMode where
  buf : List Nat
  deriving DecidableEq

namespace TcxoMode

/-- `TcxoMode::new`: the default buffer `[opcode, 0x00, 0x00, 0x00, 0x00]`. -/
def new : TcxoMode :=
  { buf := [OpCode.toBits .setTcxoMode, 0x00, 0x00, 0x00, 0x00] }

/-- `TcxoMode::set_txco_trim` (name as in the source): `self.buf[1] = tcxo_trim as u8`. -/
def set_txco_trim (m : TcxoMode) (tcxo_trim : TcxoTrim) : TcxoMode :=
  { buf := m.buf.set 1 tcxo_trim.toBits }

/-- Modelled from the spec: the external `Timeout` tick codec is not among the
provided sources; `TcxoMode::set_timeout` only reads `timeout.as_bits()`, a
`u32` tick count, so the embedding takes that value (`timeout_bits`) directly.
The source writes `buf[2] = (timeout_bits >> 16) & 0xFF`,
`buf[3] = (timeout_bits >> 8) & 0xFF`, `buf[4] = timeout_bits & 0xFF`. -/
def set_timeout (m : TcxoMode) (timeout_bits : Nat) : TcxoMode :=
  { buf := ((m.buf.set 2 ((timeout_bits >>> 16) &&& 0xFF)).set 3
      ((timeout_bits >>> 8) &&& 0xFF)).set 4 (timeout_bits &&& 0xFF) }

/-- `TcxoMode::as_slice`: the whole 5-byte buffer. -/
def as_slice (m : TcxoMode) : List Nat := m.buf

end TcxoMode

/-- Packet type (`enum PacketType { Fsk = 0, LoRa = 1, Bpsk = 2, Msk = 3 }`). -/
inductive PacketType where
  | fsk
  | loRa
  | bpsk
  | msk
  deriving DecidableEq, Fintype

/-- Numeric code of a `PacketType` (the Rust `as u8` cast). -/
def PacketType.toBits : PacketType → Nat
  | .fsk => 0
  | .loRa => 1
  | .bpsk => 2
  | .msk => 3

/-- `PacketType::from_bits`: `Result<PacketType, u8>` of the source, with the
unmatched byte returned unchanged as the error payload. -/
def PacketType.from_bits (bits : Nat) : Except Nat PacketType :=
  match bits with
  | 0 => .ok .fsk
  | 1 => .ok .loRa
  | 2 => .ok .bpsk
  | 3 => .ok .msk
  | _ => .error bits

/-- Comparison on byte values, as Rust's `u8: Ord` behaves. -/
def cmpN (a b : Nat) : Ordering :=
  if a < b then .lt else if a = b then .eq else .gt

/-- Lexicographic comparison on byte buffers, as Rust's derived `Ord` for
`[u8; 5]` behaves: the first unequal element decides. -/
def listCmp : List Nat → List Nat → Ordering
  | [], [] => .eq
  | [], _ :: _ => .lt
  | _ :: _, [] => .gt
  | a :: xs, b :: ys =>
    match cmpN a b with
    | .eq => listCmp xs ys
    | o => o

/-- Derived `Ord for RfFreq` of the source: compare the 5-byte buffers
lexicographically. -/
def RfFreq.cmp (x y : RfFreq) : Ordering := listCmp x.buf y.buf

/-- Derived `<=` on `RfFreq` (from `PartialOrd`/`Ord`): the comparison is
`Less` or `Equal`. -/
def RfFreq.le (x y : RfFreq) : Bool :=
  match x.cmp y with
  | .gt => false
  | _ => true

end SubGhz

namespace SubGhz

/-! Helper lemmas: byte-level shift/mask arithmetic. -/

/-- Masking with `0xFF` is reduction modulo 256. -/
theorem and_255_eq_mod (x : Nat) : x &&& 0xFF = x % 256 := by
  have h := Nat.and_pow_two_sub_one_eq_mod x 8
  norm_num at h
  exact h

/-- Masking with `0b111` is reduction modulo 8. -/
theorem and_7_eq_mod (x : Nat) : x &&& 0b111 = x % 8 := by
  have h := Nat.and_pow_two_sub_one_eq_mod x 3
  norm_num at h
  exact h

/-- Bitwise or is addition when the operands occupy disjoint bit ranges. -/
theorem lor_eq_add {k : Nat} (a b : Nat) (h1 : 2 ^ k ∣ a) (h2 : b < 2 ^ k) :
    a ||| b = a + b := by
  obtain ⟨c, rfl⟩ := h1
  exact (Nat.mul_add_lt_is_or h2 c).symm

/-- The buffer built by `RfFreq::from_bits`, with the shift/mask byte
extraction rewritten as division and remainder. -/
theorem RfFreq.from_bits_buf (x : Nat) :
    (RfFreq.from_bits x).buf =
      [0x86, x / 2 ^ 24 % 256, x / 2 ^ 16 % 256, x / 2 ^ 8 % 256, x % 256] := by
  simp [RfFreq.from_bits, OpCode.toBits, Nat.shiftRight_eq_div_pow, and_255_eq_mod]

/-- `as_bits` recovers from the buffer of `from_bits(x)` exactly the low 32
bits of `x`. -/
theorem RfFreq.as_bits_from_bits (x : Nat) :
    (RfFreq.from_bits x).as_bits = x % 2 ^ 32 := by
  rw [RfFreq.as_bits, RfFreq.from_bits_buf]
  simp only [List.getD_cons_succ, List.getD_cons_zero]
  rw [Nat.shiftLeft_eq, Nat.shiftLeft_eq, Nat.shiftLeft_eq]
  rw [lor_eq_add (k := 24) (x / 2 ^ 24 % 256 * 2 ^ 24) (x / 2 ^ 16 % 256 * 2 ^ 16)
      ⟨x / 2 ^ 24 % 256, by ring⟩ (by omega)]
  rw [lor_eq_add (k := 16) (x / 2 ^ 24 % 256 * 2 ^ 24 + x / 2 ^ 16 % 256 * 2 ^ 16)
      (x / 2 ^ 8 % 256 * 2 ^ 8)
      ⟨x / 2 ^ 24 % 256 * 2 ^ 8 + x / 2 ^ 16 % 256, by ring⟩ (by omega)]
  rw [lor_eq_add (k := 8)
      (x / 2 ^ 24 % 256 * 2 ^ 24 + x / 2 ^ 16 % 256 * 2 ^ 16 + x / 2 ^ 8 % 256 * 2 ^ 8)
      (x % 256)
      ⟨x / 2 ^ 24 % 256 * 2 ^ 16 + x / 2 ^ 16 % 256 * 2 ^ 8 + x / 2 ^ 8 % 256, by ring⟩
      (by omega)]
  omega

/-- `from_bits` only reads the low 32 bits of its argument: reducing the
argument modulo `2 ^ 32` (the Rust `as u32` cast) does not change the buffer. -/
theorem RfFreq.from_bits_mod (x : Nat) :
    RfFreq.from_bits (x % 2 ^ 32) = RfFreq.from_bits x := by
  refine congrArg RfFreq.mk ?_
  have e1 : (x % 2 ^ 32) >>> 24 &&& 0xFF = x >>> 24 &&& 0xFF := by
    simp only [Nat.shiftRight_eq_div_pow, and_255_eq_mod]
    omega
  have e2 : (x % 2 ^ 32) >>> 16 &&& 0xFF = x >>> 16 &&& 0xFF := by
    simp only [Nat.shiftRight_eq_div_pow, and_255_eq_mod]
    omega
  have e3 : (x % 2 ^ 32) >>> 8 &&& 0xFF = x >>> 8 &&& 0xFF := by
    simp only [Nat.shiftRight_eq_div_pow, and_255_eq_mod]
    omega
  have e4 : x % 2 ^ 32 &&& 0xFF = x &&& 0xFF := by
    simp only [and_255_eq_mod]
    omega
  rw [e1, e2, e3, e4]

/-- Decoded frequency of `from_bits(x)` for `x < 2 ^ 32`: the exact floor
quotient, never truncated by the final `as u32` cast. -/
theorem RfFreq.freq_from_bits (x : Nat) (h : x < 2 ^ 32) :
    (RfFreq.from_bits x).freq = 32000000 * x / 2 ^ 25 := by
  rw [RfFreq.freq, RfFreq.as_bits_from_bits, Nat.mod_eq_of_lt h, Nat.shiftLeft_eq, one_mul,
    Nat.mod_eq_of_lt (by omega)]

/-- C1: for every `freq: u32`, `RfFreq::from_frequency(freq)` equals
`RfFreq::from_bits` of the exact 64-bit quotient `freq * 2^25 / 32_000_000`
(the multiplication and division are exact, never modulo `2 ^ 32`); in
particular the 915 MHz, 868 MHz and 433 MHz presets are hit exactly at bit
patterns `0x39300000`, `0x36400000` and `0x1B100000`. -/
theorem c1_from_frequency_exact :
    (∀ f : Nat, f < 2 ^ 32 →
        RfFreq.from_frequency f = RfFreq.from_bits (f * 2 ^ 25 / 32000000)) ∧
      RfFreq.from_frequency 915000000 = RfFreq.F915 ∧
      RfFreq.F915 = RfFreq.from_bits 0x39300000 ∧
      RfFreq.from_frequency 868000000 = RfFreq.F868 ∧
      RfFreq.F868 = RfFreq.from_bits 0x36400000 ∧
      RfFreq.from_frequency 433000000 = RfFreq.F433 ∧
      RfFreq.F433 = RfFreq.from_bits 0x1B100000 := by
  refine ⟨fun f _ => ?_, by decide, by decide, by decide, by decide, by decide, by decide⟩
  rw [RfFreq.from_frequency]
  have h25 : (1 <<< 25 : Nat) = 2 ^ 25 := by
    rw [Nat.shiftLeft_eq, one_mul]
  rw [h25, RfFreq.from_bits_mod]

/-- Witness for C1 at 915 MHz. -/
theorem c1_witness :
    RfFreq.from_frequency 915000000 =
      RfFreq.from_bits (915000000 * 2 ^ 25 / 32000000) :=
  c1_from_frequency_exact.1 915000000 (by norm_num)

/-- C2: for every `bits: u32`, decoding with `freq()` yields the exact 64-bit
floor quotient `32_000_000 * bits / 2^25` (which always fits in 32 bits, so
the final `as u32` cast never truncates); at `u32::MAX` this is
`4_095_999_999` and at `0` it is `0`. -/
theorem c2_freq_exact :
    (∀ b : Nat, b < 2 ^ 32 → (RfFreq.from_bits b).freq = 32000000 * b / 2 ^ 25) ∧
      (RfFreq.from_bits (2 ^ 32 - 1)).freq = 4095999999 ∧
      (RfFreq.from_bits 0).freq = 0 := by
  exact ⟨fun b hb => RfFreq.freq_from_bits b hb, by decide, by decide⟩

/-- Witness for C2 at `u32::MAX`. -/
theorem c2_witness :
    (RfFreq.from_bits (2 ^ 32 - 1)).freq = 32000000 * (2 ^ 32 - 1) / 2 ^ 25 :=
  c2_freq_exact.1 (2 ^ 32 - 1) (by norm_num)

/-- C3 (counterexample): the bit value `1` lies in the image of the encoder
(`from_frequency(1) = from_bits(1)`), yet re-encoding the decoded frequency
does not recover it: `from_bits(1).freq() = 0` and `from_frequency(0) =
from_bits(0) ≠ from_bits(1)`. -/
theorem c3_counterexample :
    RfFreq.from_frequency 1 = RfFreq.from_bits 1 ∧
      RfFreq.from_frequency ((RfFreq.from_bits 1).freq) ≠ RfFreq.from_bits 1 := by
  decide

/-- C3 (amended): for every `bits: u32` (in particular every bit value in the
image of the encoder), re-encoding the decoded frequency never overshoots and
undershoots by at most two register steps: the re-encoded bit value lies in
`[bits - 2, bits]`; exact recovery fails in general (see the counterexample at
`bits = 1`). -/
theorem c3_reencode_within_two :
    ∀ b : Nat, b < 2 ^ 32 →
      (RfFreq.from_frequency ((RfFreq.from_bits b).freq)).as_bits ≤ b ∧
        b ≤ (RfFreq.from_frequency ((RfFreq.from_bits b).freq)).as_bits + 2 := by
  intro b hb
  rw [RfFreq.freq_from_bits b hb, RfFreq.from_frequency, RfFreq.as_bits_from_bits]
  rw [Nat.shiftLeft_eq, one_mul]
  have h0 : 32000000 * b / 2 ^ 25 * 2 ^ 25 ≤ 32000000 * b := Nat.div_mul_le_self _ _
  have hlt : 32000000 * b / 2 ^ 25 * 2 ^ 25 / 32000000 < 2 ^ 32 := by omega
  rw [Nat.mod_eq_of_lt hlt, Nat.mod_eq_of_lt hlt]
  omega

/-- Witness for the amended C3 at `bits = 0x39300000` (the 915 MHz preset). -/
theorem c3_witness :
    (RfFreq.from_frequency ((RfFreq.from_bits 0x39300000).freq)).as_bits ≤ 0x39300000 ∧
      0x39300000 ≤ (RfFreq.from_frequency ((RfFreq.from_bits 0x39300000).freq)).as_bits + 2 :=
  c3_reencode_within_two 0x39300000 (by norm_num)

/-- C4: for every `bits: u32`, `from_bits(bits).as_slice()` is the 5-byte
buffer holding the `SetRfFrequency` operation code followed by the big-endian
byte decomposition of `bits` (`bits >> 24`, `(bits >> 16) & 0xFF`,
`(bits >> 8) & 0xFF`, `bits & 0xFF`, written below as division and remainder). -/
theorem c4_from_bits_slice :
    ∀ b : Nat, b < 2 ^ 32 →
      (RfFreq.from_bits b).as_slice =
        [OpCode.toBits .setRfFrequency,
          b / 2 ^ 24, b / 2 ^ 16 % 256, b / 2 ^ 8 % 256, b % 256] := by
  intro b hb
  rw [RfFreq.as_slice, RfFreq.from_bits_buf]
  have h : b / 2 ^ 24 % 256 = b / 2 ^ 24 := by omega
  rw [h]
  rfl

/-- Witness for C4 at `bits = 0x39300000`. -/
theorem c4_witness :
    (RfFreq.from_bits 0x39300000).as_slice =
      [OpCode.toBits .setRfFrequency,
        0x39300000 / 2 ^ 24, 0x39300000 / 2 ^ 16 % 256,
        0x39300000 / 2 ^ 8 % 256, 0x39300000 % 256] :=
  c4_from_bits_slice 0x39300000 (by norm_num)

/-- C5 (counterexample): the claim's default buffer is wrong about byte 3:
`PaConfig::new()` stores `0x01` there (the `PaSel::Lp` code), not `0` (`Hp`),
so the buffer is not `[opcode, 1, 0, 0, 1]`. -/
theorem c5_counterexample :
    PaConfig.new.as_slice.getD 3 0 = 1 ∧
      PaConfig.new.as_slice ≠ [OpCode.toBits .setPaConfig, 1, 0, 0, 1] := by
  decide

/-- C5 (amended): `PaConfig::new()` returns the default 5-byte buffer with
byte 0 the `SetPaConfig` opcode, byte 1 (duty cycle) = 1, byte 2 (hp-max) = 0,
byte 3 (PA selection) = 1 meaning LP — the source's `PaSel` default — and
byte 4 (reserved) = 1. -/
theorem c5_new_default :
    PaConfig.new.as_slice =
      [OpCode.toBits .setPaConfig, 1, 0, PaSel.toBits .lp, 1] := by
  decide

/-- C6: on any 5-byte `PaConfig`, `set_pa_duty_cycle(v)` stores `v & 0b111`
into byte 1 and leaves bytes 0, 2, 3, 4 untouched, and `set_hp_max(v)` stores
`v & 0b111` into byte 2 and leaves bytes 0, 1, 3, 4 untouched; high bits of
`v` are silently dropped by the mask and the setters are total (no error
outcome exists). -/
theorem c6_setters_masked :
    ∀ (p : PaConfig) (v : Nat), p.buf.length = 5 → v < 256 →
      (p.set_pa_duty_cycle v).as_slice =
          [p.buf.getD 0 0, v &&& 0b111, p.buf.getD 2 0, p.buf.getD 3 0, p.buf.getD 4 0] ∧
        (p.set_hp_max v).as_slice =
          [p.buf.getD 0 0, p.buf.getD 1 0, v &&& 0b111, p.buf.getD 3 0, p.buf.getD 4 0] := by
  intro p v h hv
  obtain ⟨l⟩ := p
  match l, h with
  | [a, b, c, d, e], _ =>
    exact ⟨by simp [PaConfig.set_pa_duty_cycle, PaConfig.as_slice],
      by simp [PaConfig.set_hp_max, PaConfig.as_slice]⟩

/-- Witness for C6 at `PaConfig::new()` and `v = 0xFF` (high bits dropped:
`0xFF & 0b111 = 7`). -/
theorem c6_witness :
    (PaConfig.new.set_pa_duty_cycle 0xFF).as_slice =
        [PaConfig.new.buf.getD 0 0, 0xFF &&& 0b111, PaConfig.new.buf.getD 2 0,
          PaConfig.new.buf.getD 3 0, PaConfig.new.buf.getD 4 0] ∧
      (PaConfig.new.set_hp_max 0xFF).as_slice =
        [PaConfig.new.buf.getD 0 0, PaConfig.new.buf.getD 1 0, 0xFF &&& 0b111,
          PaConfig.new.buf.getD 3 0, PaConfig.new.buf.getD 4 0] :=
  c6_setters_masked PaConfig.new 0xFF (by decide) (by decide)

/-- C7: on any 5-byte `TcxoMode`, `set_txco_trim(t)` stores the trim code of
`t` (a value in `0..7`) into byte 1 leaving all other bytes unchanged;
`set_timeout` with tick bit value `ticks` stores the three big-endian bytes of
`ticks mod 2^24` into bytes 2, 3, 4 leaving bytes 0 and 1 unchanged; and
`TcxoMode::new()` with trim `Volts1pt7` and timeout bits `0x123456` yields
`[opcode, 1, 0x12, 0x34, 0x56]`. -/
theorem c7_tcxo_mode :
    (∀ (m : TcxoMode) (t : TcxoTrim), m.buf.length = 5 →
        (m.set_txco_trim t).as_slice =
          [m.buf.getD 0 0, t.toBits, m.buf.getD 2 0, m.buf.getD 3 0, m.buf.getD 4 0]) ∧
      (∀ t : TcxoTrim, t.toBits < 8) ∧
      (∀ (m : TcxoMode) (ticks : Nat), m.buf.length = 5 → ticks < 2 ^ 32 →
        (m.set_timeout ticks).as_slice =
          [m.buf.getD 0 0, m.buf.getD 1 0,
            ticks % 2 ^ 24 / 2 ^ 16, ticks % 2 ^ 24 / 2 ^ 8 % 256, ticks % 2 ^ 24 % 256]) ∧
      ((TcxoMode.new.set_txco_trim .volts1pt7).set_timeout 0x123456).as_slice =
        [OpCode.toBits .setTcxoMode, 1, 0x12, 0x34, 0x56] := by
  refine ⟨?_, by decide, ?_, by decide⟩
  · intro m t h
    obtain ⟨l⟩ := m
    match l, h with
    | [a, b, c, d, e], _ => simp [TcxoMode.set_txco_trim, TcxoMode.as_slice]
  · intro m ticks h ht
    obtain ⟨l⟩ := m
    match l, h with
    | [a, b, c, d, e], _ =>
      simp only [TcxoMode.set_timeout, TcxoMode.as_slice, List.set, List.getD_cons_succ,
        List.getD_cons_zero, Nat.shiftRight_eq_div_pow, and_255_eq_mod, List.cons.injEq,
        and_true, true_and]
      omega

/-- Witness for C7: the timeout conjunct applied at `TcxoMode::new()` and
`ticks = 0x89123456` (bits above 24 dropped). -/
theorem c7_witness :
    (TcxoMode.new.set_timeout 0x89123456).as_slice =
      [TcxoMode.new.buf.getD 0 0, TcxoMode.new.buf.getD 1 0,
        0x89123456 % 2 ^ 24 / 2 ^ 16, 0x89123456 % 2 ^ 24 / 2 ^ 8 % 256,
        0x89123456 % 2 ^ 24 % 256] :=
  c7_tcxo_mode.2.2.1 TcxoMode.new 0x89123456 (by decide) (by norm_num)

/-- C8: `PacketType::from_bits(b)` maps each byte `b` in `0..3` to `Ok` of the
variant whose numeric code is `b` (`Fsk`, `LoRa`, `Bpsk`, `Msk`), and every
byte `b ≥ 4` to `Err(b)` carrying the input byte unchanged; being a total
Lean function, it has no other outcome and cannot panic. -/
theorem c8_packet_type_from_bits :
    PacketType.from_bits 0 = .ok .fsk ∧
      PacketType.from_bits 1 = .ok .loRa ∧
      PacketType.from_bits 2 = .ok .bpsk ∧
      PacketType.from_bits 3 = .ok .msk ∧
      (∀ t : PacketType, PacketType.from_bits t.toBits = .ok t) ∧
      (∀ b : Nat, 4 ≤ b → b < 256 → PacketType.from_bits b = .error b) := by
  refine ⟨rfl, rfl, rfl, rfl, fun t => by cases t <;> rfl, ?_⟩
  intro b h4 h256
  match b, h4 with
  | n + 4, _ => rfl

/-- Witness for C8 at the reserved byte `b = 4`. -/
theorem c8_witness : PacketType.from_bits 4 = .error 4 :=
  c8_packet_type_from_bits.2.2.2.2.2 4 (by norm_num) (by norm_num)

/-- C9: the source's hand-written comparison on `PaSel` is a total order
(reflexive-equality, antisymmetric via the swap law, transitive, total) in
which `Lp` compares strictly less than `Hp`, reversed from the
declaration/numeric-code order (`Hp = 0`, `Lp = 1`). -/
theorem c9_pa_sel_order :
    (∀ a b : PaSel, a.cmp b = .eq ↔ a = b) ∧
      (∀ a b : PaSel, a.cmp b = .lt ↔ b.cmp a = .gt) ∧
      (∀ a b c : PaSel, a.cmp b ≠ .gt → b.cmp c ≠ .gt → a.cmp c ≠ .gt) ∧
      (∀ a b : PaSel, a.cmp b ≠ .gt ∨ b.cmp a ≠ .gt) ∧
      PaSel.cmp .lp .hp = .lt ∧ PaSel.cmp .hp .lp = .gt := by
  decide

/-- Witness for C9: transitivity applied at `Lp, Lp, Hp`. -/
theorem c9_witness : PaSel.cmp .lp .hp ≠ .gt :=
  c9_pa_sel_order.2.2.1 .lp .lp .hp (by decide) (by decide)

/-- Comparing a byte against itself yields `Equal`. -/
theorem listCmp_cons (x : Nat) (xs ys : List Nat) :
    listCmp (x :: xs) (x :: ys) = listCmp xs ys := by
  have h : cmpN x x = .eq := by
    rw [cmpN, if_neg (by omega), if_pos rfl]
  simp [listCmp, h]

/-- Lexicographic comparison of a buffer with itself yields `Equal`. -/
theorem listCmp_self (l : List Nat) : listCmp l l = .eq := by
  induction l with
  | nil => rfl
  | cons x xs ih => rw [listCmp_cons, ih]

/-- Byte comparison yields `Greater` exactly on a strictly larger left byte. -/
theorem cmpN_eq_gt {a b : Nat} (h : b < a) : cmpN a b = .gt := by
  rw [cmpN, if_neg (by omega), if_neg (by omega)]

/-- Byte comparison yields `Less` exactly on a strictly smaller left byte. -/
theorem cmpN_eq_lt {a b : Nat} (h : a < b) : cmpN a b = .lt := by
  rw [cmpN, if_pos h]

/-- A strictly larger head byte decides the lexicographic comparison as
`Greater`. -/
theorem listCmp_cons_gt {x y : Nat} (xs ys : List Nat) (h : y < x) :
    listCmp (x :: xs) (y :: ys) = .gt := by
  have hc : cmpN x y = .gt := cmpN_eq_gt h
  simp [listCmp, hc]

/-- A strictly smaller head byte decides the lexicographic comparison as
`Less`. -/
theorem listCmp_cons_lt {x y : Nat} (xs ys : List Nat) (h : x < y) :
    listCmp (x :: xs) (y :: ys) = .lt := by
  have hc : cmpN x y = .lt := cmpN_eq_lt h
  simp [listCmp, hc]

/-- Big-endian byte buffers of 32-bit values compare `Greater` exactly as the
values do: the numerically larger value wins the lexicographic comparison. -/
theorem listCmp5_gt (a b : Nat) (ha : a < 2 ^ 32) (hb : b < 2 ^ 32) (h : b < a) :
    listCmp [0x86, a / 2 ^ 24 % 256, a / 2 ^ 16 % 256, a / 2 ^ 8 % 256, a % 256]
        [0x86, b / 2 ^ 24 % 256, b / 2 ^ 16 % 256, b / 2 ^ 8 % 256, b % 256] = .gt := by
  rw [listCmp_cons]
  rcases Nat.lt_trichotomy (a / 2 ^ 24 % 256) (b / 2 ^ 24 % 256) with h1 | h1 | h1
  · omega
  · rw [h1, listCmp_cons]
    rcases Nat.lt_trichotomy (a / 2 ^ 16 % 256) (b / 2 ^ 16 % 256) with h2 | h2 | h2
    · omega
    · rw [h2, listCmp_cons]
      rcases Nat.lt_trichotomy (a / 2 ^ 8 % 256) (b / 2 ^ 8 % 256) with h3 | h3 | h3
      · omega
      · rw [h3, listCmp_cons]
        have h4 : b % 256 < a % 256 := by omega
        exact listCmp_cons_gt _ _ h4
      · exact listCmp_cons_gt _ _ h3
    · exact listCmp_cons_gt _ _ h2
  · exact listCmp_cons_gt _ _ h1

/-- Big-endian byte buffers of 32-bit values compare `Less` exactly as the
values do: the numerically smaller value loses the lexicographic comparison. -/
theorem listCmp5_lt (a b : Nat) (ha : a < 2 ^ 32) (hb : b < 2 ^ 32) (h : a < b) :
    listCmp [0x86, a / 2 ^ 24 % 256, a / 2 ^ 16 % 256, a / 2 ^ 8 % 256, a % 256]
        [0x86, b / 2 ^ 24 % 256, b / 2 ^ 16 % 256, b / 2 ^ 8 % 256, b % 256] = .lt := by
  rw [listCmp_cons]
  rcases Nat.lt_trichotomy (a / 2 ^ 24 % 256) (b / 2 ^ 24 % 256) with h1 | h1 | h1
  · exact listCmp_cons_lt _ _ h1
  · rw [h1, listCmp_cons]
    rcases Nat.lt_trichotomy (a / 2 ^ 16 % 256) (b / 2 ^ 16 % 256) with h2 | h2 | h2
    · exact listCmp_cons_lt _ _ h2
    · rw [h2, listCmp_cons]
      rcases Nat.lt_trichotomy (a / 2 ^ 8 % 256) (b / 2 ^ 8 % 256) with h3 | h3 | h3
      · exact listCmp_cons_lt _ _ h3
      · rw [h3, listCmp_cons]
        have h4 : a % 256 < b % 256 := by omega
        exact listCmp_cons_lt _ _ h4
      · omega
    · omega
  · omega

/-- C10: the derived lexicographic ordering on `RfFreq` buffers coincides with
the numeric ordering of the register bit values: for all `a, b: u32`,
`from_bits(a) <= from_bits(b)` holds exactly when `a <= b` (the opcode byte is
shared, and big-endian byte order makes the lexicographic comparison agree
with numeric comparison). -/
theorem c10_rf_freq_le_iff :
    ∀ a b : Nat, a < 2 ^ 32 → b < 2 ^ 32 →
      (RfFreq.le (RfFreq.from_bits a) (RfFreq.from_bits b) = true ↔ a ≤ b) := by
  intro a b ha hb
  simp only [RfFreq.le, RfFreq.cmp, RfFreq.from_bits_buf]
  rcases Nat.lt_trichotomy a b with h | h | h
  · rw [listCmp5_lt a b ha hb h]
    simp
    omega
  · subst h
    rw [listCmp_self]
    simp
  · rw [listCmp5_gt a b ha hb h]
    simp
    omega

/-- Witness for C10 at the 868 MHz and 915 MHz preset bit values. -/
theorem c10_witness :
    RfFreq.le (RfFreq.from_bits 0x36400000) (RfFreq.from_bits 0x39300000) = true ↔
      (0x36400000 : Nat) ≤ 0x39300000 :=
  c10_rf_freq_le_iff 0x36400000 0x39300000 (by norm_num) (by norm_num)

end SubGhz
